import Mathlib

/-!
# Shallow embedding of the sEEPROM driver (sEEPROM.h / sEEPROM.cpp)

The driver exposes one class, `sEEPROM`, holding a sector `start` address
(`uint32_t`) and a `length` in bytes (`uint16_t`), with three operations:
`read`, `write` and `erase`.  We embed the flat byte-addressed memory as a
function `Nat → Nat` (addresses reduced modulo 2^32 at every access), model
every hardware register interaction as an `Event` in an explicit trace, and
translate each method body statement by statement.  Machine arithmetic is
`Nat` with explicit `% 2^32` (for `uint32_t` sums and pointer values) and
`% 2^16` (for the `uint16_t` offset updates inside `write`).  The C
do-while loops run their body once before testing `idx != len` on a
`uint16_t` index, so a call with `len = 0` iterates 65536 times; `dwCount`
captures exactly that iteration count.
-/

/-- 2^32, the modulus of `uint32_t` arithmetic. -/
def U32 : Nat := 4294967296

/-- 2^16, the modulus of `uint16_t` arithmetic. -/
def U16 : Nat := 65536

/-- `SEEPROM_NOK`: return code for not-OK status (misaligned erase). -/
def SEEPROM_NOK : Nat := 0

/-- `SEEPROM_OK`: return code for OK status. -/
def SEEPROM_OK : Nat := 1

/-- `SEEPROM_OF`: return code for prevented overflow. -/
def SEEPROM_OF : Nat := 2

/-- Byte-addressed memory (also used for caller-side byte buffers). -/
abbrev Mem := Nat → Nat

/-- Hardware and memory interactions, recorded in order of occurrence. -/
inductive Event where
  /-- Busy-poll of `FLASH->SR & FLASH_SR_BSY`. -/
  | busyWait : Event
  /-- A write of value `v` to the `FLASH->PEKEYR` unlock-key register. -/
  | pekey (v : Nat) : Event
  /-- Setting the `FLASH_PECR_PELOCK` bit (re-lock). -/
  | pelock : Event
  /-- Setting the `FLASH_PECR_ERASE` bit. -/
  | eraseOn : Event
  /-- Clearing the `FLASH_PECR_ERASE` bit. -/
  | eraseOff : Event
  /-- The `__WFI()` wait-for-interrupt instruction. -/
  | wfi : Event
  /-- A `width`-byte store to EEPROM memory at byte address `addr`. -/
  | memWrite (addr width : Nat) : Event
  /-- A one-byte load from EEPROM memory at byte address `addr`. -/
  | memRead (addr : Nat) : Event
deriving DecidableEq, Repr

/-- `unlockEEPROM()`: busy-wait, then the two magic key writes
`PEKEY_VALUE_1 = 0x89ABCDEF` and `PEKEY_VALUE_2 = 0x02030405`. -/
def unlockEvents : List Event :=
  [Event.busyWait, Event.pekey 0x89ABCDEF, Event.pekey 0x02030405]

/-- `lockEEPROM()`: busy-wait, then set the `PELOCK` bit. -/
def lockEvents : List Event := [Event.busyWait, Event.pelock]

/-- Iteration count of a C `do { ... idx++; } while (idx != len);` loop with
a `uint16_t` index starting at 0: the body runs at least once, so `len = 0`
(mod 2^16) gives 65536 iterations, otherwise `len % 2^16`. -/
def dwCount (len : Nat) : Nat := if len % U16 = 0 then U16 else len % U16

/-- Store byte `v` at address `a` (reduced mod 2^32). -/
def setB (m : Mem) (a v : Nat) : Mem :=
  fun x => if x = a % U32 then v else m x

/-- One element store of the templated backend `write<T>` with
`sizeof(T) = w`: `startAddr[idx] = value[idx]` copies the `w` bytes of the
element, byte `j` of the destination element receiving byte `j` of the
source element (`dstBase`, `srcBase` are byte offsets of the cast
pointers). -/
def writeElem (w : Nat) (m : Mem) (dstBase srcBase idx : Nat) (value : Mem) : Mem :=
  (List.range w).foldl
    (fun acc j => setB acc (dstBase + w * idx + j) (value (srcBase + w * idx + j))) m

/-- The do-while loop of `write<T>` unrolled from index `idx` for a given
number of remaining iterations: busy-wait, store one element, continue. -/
def writeTIter (w dstBase srcBase : Nat) (value : Mem) (idx : Nat) (m : Mem) :
    Nat → Mem × List Event
  | 0 => (m, [])
  | n + 1 =>
    let m1 := writeElem w m dstBase srcBase idx value
    let r := writeTIter w dstBase srcBase value (idx + 1) m1 n
    (r.1, Event.busyWait :: Event.memWrite ((dstBase + w * idx) % U32) w :: r.2)

/-- `sEEPROM::write<T>(T* startAddr, T* value, uint16_t len)`: a do-while
loop over `dwCount len` elements of width `w = sizeof(T)`. -/
def writeT (w dstBase srcBase : Nat) (value : Mem) (len : Nat) (m : Mem) :
    Mem × List Event :=
  writeTIter w dstBase srcBase value 0 m (dwCount len)

/-- The `sEEPROM` class: sector start address and length in bytes, both
fixed at construction. -/
structure sEEPROM where
  start : Nat
  length : Nat

/-- Result of a mutating operation: status code, memory after, event
trace. -/
structure MutResult where
  status : Nat
  mem : Mem
  trace : List Event

/-- Result of `read`: status code, output buffer after, event trace. -/
structure ReadResult where
  status : Nat
  out : Mem
  trace : List Event

/-- The shared bounds guard
`(start + startOffset + lenBytes) < (start + lenBytes)` on `uint32_t`
values: true exactly when the left sum wraps below the right one mod
2^32. -/
def overflowCheck (start off lenB : Nat) : Bool :=
  (start + off + lenB) % U32 < (start + lenB) % U32

/-- The read copy loop unrolled: `output[idx] = addr[idx]; idx++;` with
`addr = (uint8_t*)(start + startOffset)` already reduced to `base`. -/
def readIter (base : Nat) (mem : Mem) (idx : Nat) (out : Mem) :
    Nat → Mem × List Event
  | 0 => (out, [])
  | n + 1 =>
    let out1 := fun x => if x = idx then mem ((base + idx) % U32) else out x
    let r := readIter base mem (idx + 1) out1 n
    (r.1, Event.memRead ((base + idx) % U32) :: r.2)

/-- `sEEPROM::read(uint16_t startOffset, void* output, uint16_t len)`. -/
def sEEPROM.read (e : sEEPROM) (startOffset : Nat) (output : Mem) (len : Nat)
    (mem : Mem) : ReadResult :=
  if overflowCheck e.start startOffset len then ⟨SEEPROM_OF, output, []⟩
  else
    let r := readIter ((e.start + startOffset) % U32) mem 0 output (dwCount len)
    ⟨SEEPROM_OK, r.1, r.2⟩

/-- `sEEPROM::write(uint16_t startOffset, void* value, uint16_t len)`.

After the bounds guard it computes `len4 = len / 4`, `len %= 4`,
`len2 = len / 2`, `len %= 2`, then (bracketed by unlock/lock):
- if `len4`: `write<uint32_t>((uint32_t*)(start + startOffset),
  (uint32_t*)value, len4)` and `startOffset += len4 * 4` (a `uint16_t`
  update, hence `% U16`);
- if `len2`: `write<uint16_t>((uint16_t*)(start + startOffset),
  (uint16_t*)value + startOffset, len2)` — the source pointer is `value`
  advanced by `startOffset` two-byte elements, i.e. byte offset
  `2 * startOffset` — and `startOffset += len2 * 2`;
- if `len`: `write<uint8_t>((uint8_t*)(start + startOffset),
  (uint8_t*)value + startOffset, len)` — source byte offset
  `startOffset`. -/
def sEEPROM.write (e : sEEPROM) (startOffset : Nat) (value : Mem) (len : Nat)
    (mem : Mem) : MutResult :=
  if overflowCheck e.start startOffset len then ⟨SEEPROM_OF, mem, []⟩
  else
    let len4 := len / 4
    let lenA := len % 4
    let len2 := lenA / 2
    let len1 := lenA % 2
    let p4 :=
      if len4 ≠ 0 then
        let r := writeT 4 ((e.start + startOffset) % U32) 0 value len4 mem
        (r.1, r.2, (startOffset + len4 * 4) % U16)
      else (mem, ([] : List Event), startOffset)
    let p2 :=
      if len2 ≠ 0 then
        let r := writeT 2 ((e.start + p4.2.2) % U32) (2 * p4.2.2) value len2 p4.1
        (r.1, r.2, (p4.2.2 + len2 * 2) % U16)
      else (p4.1, ([] : List Event), p4.2.2)
    let p1 :=
      if len1 ≠ 0 then writeT 1 ((e.start + p2.2.2) % U32) p2.2.2 value len1 p2.1
      else (p2.1, ([] : List Event))
    ⟨SEEPROM_OK, p1.1, unlockEvents ++ (p4.2.1 ++ p2.2.1 ++ p1.2) ++ lockEvents⟩

/-- `addr[idx] = 0x00` for `uint32_t* addr`: zero the four bytes of word
`idx`. -/
def zeroWord (m : Mem) (a : Nat) : Mem :=
  setB (setB (setB (setB m a 0) (a + 1) 0) (a + 2) 0) (a + 3) 0

/-- The erase do-while loop unrolled: zero one word, `__WFI()`,
continue. -/
def eraseIter (base : Nat) (mem : Mem) (idx : Nat) : Nat → Mem × List Event
  | 0 => (mem, [])
  | n + 1 =>
    let m1 := zeroWord mem (base + 4 * idx)
    let r := eraseIter base m1 (idx + 1) n
    (r.1, Event.memWrite ((base + 4 * idx) % U32) 4 :: Event.wfi :: r.2)

/-- `sEEPROM::erase(uint16_t startOffset, uint16_t len)`: alignment check,
bounds guard with `len * 4` bytes, then unlock, set `ERASE`, the word loop,
clear `ERASE`, lock. -/
def sEEPROM.erase (e : sEEPROM) (startOffset len : Nat) (mem : Mem) : MutResult :=
  if startOffset % 4 ≠ 0 then ⟨SEEPROM_NOK, mem, []⟩
  else if overflowCheck e.start startOffset (len * 4) then ⟨SEEPROM_OF, mem, []⟩
  else
    let r := eraseIter ((e.start + startOffset) % U32) mem 0 (dwCount len)
    ⟨SEEPROM_OK, r.1,
      unlockEvents ++ [Event.eraseOn] ++ r.2 ++ [Event.eraseOff] ++ lockEvents⟩

/-- Byte addresses of the `memWrite` events of a trace, in order. -/
def eventAddrs (l : List Event) : List Nat :=
  l.filterMap fun e =>
    match e with
    | Event.memWrite a _ => some a
    | _ => none
theorem readIter_trace_length (base : Nat) (mem : Mem) :
    ∀ (n idx : Nat) (out : Mem), ((readIter base mem idx out n).2).length = n := by
  intro n
  induction n with
  | zero => intro idx out; rfl
  | succ k ih =>
    intro idx out
    simp [readIter, ih]

theorem zeroWord_hit (m : Mem) (a j : Nat) (hj : j < 4) :
    zeroWord m a ((a + j) % U32) = 0 := by
  unfold zeroWord setB
  interval_cases j <;> split_ifs <;> simp_all

theorem zeroWord_miss (m : Mem) (a x : Nat) (hx : ∀ j, j < 4 → x ≠ (a + j) % U32) :
    zeroWord m a x = m x := by
  unfold zeroWord setB
  rw [if_neg (hx 3 (by omega)), if_neg (hx 2 (by omega)),
    if_neg (hx 1 (by omega))]
  have h0 := hx 0 (by omega)
  rw [if_neg (by simpa using h0)]

theorem zeroWord_cases (m : Mem) (a x : Nat) :
    zeroWord m a x = 0 ∨ zeroWord m a x = m x := by
  unfold zeroWord setB
  split_ifs <;> simp

theorem eraseIter_either (base : Nat) :
    ∀ (n idx : Nat) (mem : Mem) (x : Nat),
      (eraseIter base mem idx n).1 x = 0 ∨ (eraseIter base mem idx n).1 x = mem x := by
  intro n
  induction n with
  | zero => intro idx mem x; right; rfl
  | succ k ih =>
    intro idx mem x
    have h1 := ih (idx + 1) (zeroWord mem (base + 4 * idx)) x
    have h2 := zeroWord_cases mem (base + 4 * idx) x
    unfold eraseIter
    rcases h1 with h | h
    · left; exact h
    · rcases h2 with h' | h'
      · left; rw [h, h']
      · right; rw [h, h']

theorem eraseIter_frame (base : Nat) :
    ∀ (n idx : Nat) (mem : Mem) (x : Nat),
      (∀ k, k < 4 * n → x ≠ (base + 4 * idx + k) % U32) →
      (eraseIter base mem idx n).1 x = mem x := by
  intro n
  induction n with
  | zero => intro idx mem x _; rfl
  | succ k ih =>
    intro idx mem x hx
    unfold eraseIter
    have step : ∀ j, j < 4 * k → x ≠ (base + 4 * (idx + 1) + j) % U32 := by
      intro j hj
      have := hx (j + 4) (by omega)
      have harg : base + 4 * (idx + 1) + j = base + 4 * idx + (j + 4) := by ring
      rw [harg]
      exact this
    rw [ih (idx + 1) _ x step]
    exact zeroWord_miss _ _ _ (fun j hj => hx j (by omega))

theorem eraseIter_zero (base : Nat) :
    ∀ (n idx : Nat) (mem : Mem) (k : Nat), k < 4 * n →
      (eraseIter base mem idx n).1 ((base + 4 * idx + k) % U32) = 0 := by
  intro n
  induction n with
  | zero => intro idx mem k hk; omega
  | succ c ih =>
    intro idx mem k hk
    unfold eraseIter
    by_cases h4 : 4 ≤ k
    · have := ih (idx + 1) (zeroWord mem (base + 4 * idx)) (k - 4) (by omega)
      have harg : base + 4 * (idx + 1) + (k - 4) = base + 4 * idx + k := by omega
      rwa [harg] at this
    · rcases eraseIter_either base c (idx + 1) (zeroWord mem (base + 4 * idx))
        ((base + 4 * idx + k) % U32) with h | h
      · exact h
      · rw [h]
        have harg : base + 4 * idx + k = (base + 4 * idx) + k := by ring
        rw [harg]
        exact zeroWord_hit mem (base + 4 * idx) k (by omega)

theorem eventAddrs_eraseIter (base : Nat) :
    ∀ (n idx : Nat) (mem : Mem),
      eventAddrs (eraseIter base mem idx n).2 =
        (List.range n).map (fun i => (base + 4 * (idx + i)) % U32) := by
  intro n
  induction n with
  | zero => intro idx mem; rfl
  | succ k ih =>
    intro idx mem
    have hhead : eventAddrs (eraseIter base mem idx (k + 1)).2 =
        (base + 4 * idx) % U32 ::
          eventAddrs (eraseIter base (zeroWord mem (base + 4 * idx)) (idx + 1) k).2 := by
      simp [eraseIter, eventAddrs]
    rw [hhead, ih (idx + 1)]
    rw [List.range_succ_eq_map, List.map_cons, List.map_map]
    refine congrArg₂ List.cons (by norm_num) ?_
    apply List.map_congr_left
    intro a _
    simp only [Function.comp_apply]
    congr 1
    omega
theorem read_ok_eq (s L off : Nat) (out : Mem) (len : Nat) (mem : Mem)
    (h : overflowCheck s off len = false) :
    sEEPROM.read ⟨s, L⟩ off out len mem =
      ⟨SEEPROM_OK,
        (readIter ((s + off) % U32) mem 0 out (dwCount len)).1,
        (readIter ((s + off) % U32) mem 0 out (dwCount len)).2⟩ := by
  unfold sEEPROM.read
  rw [if_neg (by simp [h])]
/-- Claim C2: for every sector and every `(startOffset, len)`, the bounds
check of `read`, `write` and `erase` returns `SEEPROM_OF` exactly when
`start + startOffset + lenBytes`, computed mod 2^32, is strictly below
`start + lenBytes` mod 2^32 (`lenBytes = len * 4` for `erase`, which
additionally requires the alignment check to have passed); and the guard is
not the comparison `startOffset + len > length`: at `start = 0x1000`,
`length = 64`, `read(60, buf, 8)` is not rejected although `60 + 8 > 64`. -/
theorem bounds_check_is_wrap_guard :
    (∀ (s L off l : Nat) (out value mem : Mem),
      ((sEEPROM.read ⟨s, L⟩ off out l mem).status = SEEPROM_OF ↔
        overflowCheck s off l = true) ∧
      ((sEEPROM.write ⟨s, L⟩ off value l mem).status = SEEPROM_OF ↔
        overflowCheck s off l = true) ∧
      ((sEEPROM.erase ⟨s, L⟩ off l mem).status = SEEPROM_OF ↔
        (off % 4 = 0 ∧ overflowCheck s off (l * 4) = true)) ∧
      (overflowCheck s off l = true ↔ (s + off + l) % U32 < (s + l) % U32)) ∧
    ((sEEPROM.read ⟨4096, 64⟩ 60 (fun _ => 0) 8 (fun _ => 0)).status ≠ SEEPROM_OF ∧
      60 + 8 > 64) := by
  constructor
  · intro s L off l out value mem
    refine ⟨?_, ?_, ?_, by simp [overflowCheck]⟩
    · by_cases hb : overflowCheck s off l = true <;>
        simp [sEEPROM.read, hb, SEEPROM_OF, SEEPROM_OK]
    · by_cases hb : overflowCheck s off l = true <;>
        simp [sEEPROM.write, hb, SEEPROM_OF, SEEPROM_OK]
    · by_cases ha : off % 4 = 0
      · by_cases hb : overflowCheck s off (l * 4) = true <;>
          simp [sEEPROM.erase, ha, hb, SEEPROM_OF, SEEPROM_OK]
      · simp [sEEPROM.erase, ha, SEEPROM_OF, SEEPROM_NOK]
  · exact ⟨by decide, by decide⟩

/-- Claim C7: `erase` with a `startOffset` that is not a multiple of 4
returns `SEEPROM_NOK` (a status distinct from `SEEPROM_OF`), leaves the
memory untouched and emits no hardware event at all: no unlock-key writes,
no erase-enable toggle, no memory store. -/
theorem erase_misaligned_no_mutation (s L off l : Nat) (mem : Mem)
    (h : off % 4 ≠ 0) :
    sEEPROM.erase ⟨s, L⟩ off l mem = ⟨SEEPROM_NOK, mem, []⟩ ∧
    SEEPROM_NOK ≠ SEEPROM_OF := by
  refine ⟨?_, by decide⟩
  unfold sEEPROM.erase
  rw [if_pos h]

/-- Witness for `erase_misaligned_no_mutation` at `startOffset = 1`. -/
theorem erase_misaligned_no_mutation_witness :
    sEEPROM.erase ⟨4096, 64⟩ 1 1 (fun _ => 0) = ⟨SEEPROM_NOK, (fun _ => 0), []⟩ ∧
    SEEPROM_NOK ≠ SEEPROM_OF :=
  erase_misaligned_no_mutation 4096 64 1 1 (fun _ => 0) (by decide)

/-- Claim C10: in `erase` the alignment check runs before the bounds
check: whenever `startOffset` is both misaligned and rejected by the wrap
guard, the returned status is `SEEPROM_NOK` (Misaligned), never
`SEEPROM_OF`. -/
theorem erase_alignment_before_bounds (s L off l : Nat) (mem : Mem)
    (hmis : off % 4 ≠ 0) (_hof : overflowCheck s off (l * 4) = true) :
    (sEEPROM.erase ⟨s, L⟩ off l mem).status = SEEPROM_NOK ∧
    (sEEPROM.erase ⟨s, L⟩ off l mem).status ≠ SEEPROM_OF := by
  have h : sEEPROM.erase ⟨s, L⟩ off l mem = ⟨SEEPROM_NOK, mem, []⟩ := by
    unfold sEEPROM.erase
    rw [if_pos hmis]
  rw [h]
  refine ⟨rfl, ?_⟩
  show SEEPROM_NOK ≠ SEEPROM_OF
  decide

/-- Witness for `erase_alignment_before_bounds`: at `start = 2^32 - 1`,
`startOffset = 2`, `len = 0` the wrap guard fires and the offset is
misaligned; the status is still `SEEPROM_NOK`. -/
theorem erase_alignment_before_bounds_witness :
    (sEEPROM.erase ⟨4294967295, 64⟩ 2 0 (fun _ => 0)).status = SEEPROM_NOK ∧
    (sEEPROM.erase ⟨4294967295, 64⟩ 2 0 (fun _ => 0)).status ≠ SEEPROM_OF :=
  erase_alignment_before_bounds 4294967295 64 2 0 (fun _ => 0) (by decide) (by decide)

/-- Claim C9: for a sector whose `start` keeps `start + startOffset + len`
below 2^32 for all 16-bit `startOffset` and `len`, the `SEEPROM_OF` branch
of `read` and `write` is unreachable: both return `SEEPROM_OK` for every
`(startOffset, len)` pair, including ranges far beyond the configured
`length`. -/
theorem overflow_branch_unreachable (s L : Nat) (out value mem : Mem)
    (h : ∀ off l : Nat, off < U16 → l < U16 → s + off + l < U32) :
    ∀ off l : Nat, off < U16 → l < U16 →
      (sEEPROM.read ⟨s, L⟩ off out l mem).status = SEEPROM_OK ∧
      (sEEPROM.write ⟨s, L⟩ off value l mem).status = SEEPROM_OK := by
  intro off l ho hl
  have hlt := h off l ho hl
  have hno : overflowCheck s off l = false := by
    simp only [overflowCheck, decide_eq_false_iff_not, not_lt]
    rw [Nat.mod_eq_of_lt hlt, Nat.mod_eq_of_lt (by omega)]
    omega
  constructor
  · simp [sEEPROM.read, hno]
  · simp [sEEPROM.write, hno]

/-- Witness for `overflow_branch_unreachable` at the platform base
`SEEPROM_START = 0x08080000` with `length = 2048` (`SEEPROM_SIZE`) and a
request far beyond those 2048 bytes. -/
theorem overflow_branch_unreachable_witness :
    (sEEPROM.read ⟨134742016, 2048⟩ 3000 (fun _ => 0) 5000 (fun _ => 0)).status =
      SEEPROM_OK ∧
    (sEEPROM.write ⟨134742016, 2048⟩ 3000 (fun _ => 0) 5000 (fun _ => 0)).status =
      SEEPROM_OK :=
  overflow_branch_unreachable 134742016 2048 (fun _ => 0) (fun _ => 0) (fun _ => 0)
    (by intro off l ho hl; simp only [U16, U32] at *; omega)
    3000 5000 (by decide) (by decide)

/-- Claim C8: a mutating operation whose bounds check fires returns
`SEEPROM_OF` with the memory untouched and an empty event trace (no
hardware interaction at all); every `SEEPROM_OK` run of `write` or `erase`
has a trace that starts with the full unlock sequence and ends with the
re-lock, and no memory store ever occurs inside the unlock or lock
sequences themselves. -/
theorem mutating_ops_lock_protocol (s L off l : Nat) (value mem : Mem) :
    ((sEEPROM.write ⟨s, L⟩ off value l mem).status = SEEPROM_OF →
      sEEPROM.write ⟨s, L⟩ off value l mem = ⟨SEEPROM_OF, mem, []⟩) ∧
    ((sEEPROM.write ⟨s, L⟩ off value l mem).status = SEEPROM_OK →
      ∃ mid, (sEEPROM.write ⟨s, L⟩ off value l mem).trace =
        unlockEvents ++ mid ++ lockEvents) ∧
    ((sEEPROM.erase ⟨s, L⟩ off l mem).status = SEEPROM_OF →
      sEEPROM.erase ⟨s, L⟩ off l mem = ⟨SEEPROM_OF, mem, []⟩) ∧
    ((sEEPROM.erase ⟨s, L⟩ off l mem).status = SEEPROM_OK →
      ∃ mid, (sEEPROM.erase ⟨s, L⟩ off l mem).trace =
        unlockEvents ++ mid ++ lockEvents) ∧
    (∀ a w : Nat, Event.memWrite a w ∉ unlockEvents ∧
      Event.memWrite a w ∉ lockEvents) := by
  refine ⟨?_, ?_, ?_, ?_, ?_⟩
  · intro hst
    by_cases hb : overflowCheck s off l = true
    · unfold sEEPROM.write
      rw [if_pos hb]
    · simp [sEEPROM.write, hb, SEEPROM_OK, SEEPROM_OF] at hst
  · intro hst
    by_cases hb : overflowCheck s off l = true
    · simp [sEEPROM.write, hb, SEEPROM_OK, SEEPROM_OF] at hst
    · unfold sEEPROM.write
      rw [if_neg hb]
      exact ⟨_, rfl⟩
  · intro hst
    by_cases ha : off % 4 ≠ 0
    · simp [sEEPROM.erase, ha, SEEPROM_NOK, SEEPROM_OF] at hst
    · by_cases hb : overflowCheck s off (l * 4) = true
      · unfold sEEPROM.erase
        rw [if_neg ha, if_pos hb]
      · simp [sEEPROM.erase, ha, hb, SEEPROM_OK, SEEPROM_OF] at hst
  · intro hst
    by_cases ha : off % 4 ≠ 0
    · simp [sEEPROM.erase, ha, SEEPROM_NOK, SEEPROM_OK] at hst
    · by_cases hb : overflowCheck s off (l * 4) = true
      · simp [sEEPROM.erase, ha, hb, SEEPROM_OK, SEEPROM_OF] at hst
      · refine ⟨[Event.eraseOn] ++
          (eraseIter ((s + off) % U32) mem 0 (dwCount l)).2 ++ [Event.eraseOff], ?_⟩
        unfold sEEPROM.erase
        rw [if_neg ha, if_neg hb]
        simp
  · intro a w
    constructor <;> simp [unlockEvents, lockEvents]

/-- Witness for `mutating_ops_lock_protocol`: a `write` at
`start = 2^32 - 1` whose guard wraps leaves memory and hardware alone; an
aligned in-range `erase` run is bracketed by the unlock and lock
sequences. -/
theorem mutating_ops_lock_protocol_witness :
    sEEPROM.write ⟨4294967295, 64⟩ 2 (fun _ => 0) 0 (fun _ => 0) =
      ⟨SEEPROM_OF, (fun _ => 0), []⟩ ∧
    ∃ mid, (sEEPROM.erase ⟨4096, 64⟩ 0 1 (fun _ => 0)).trace =
      unlockEvents ++ mid ++ lockEvents :=
  ⟨(mutating_ops_lock_protocol 4294967295 64 2 0 (fun _ => 0) (fun _ => 0)).1
      (by decide),
    (mutating_ops_lock_protocol 4096 64 0 1 (fun _ => 0) (fun _ => 0)).2.2.2.1
      (by decide)⟩
/-- Claim C1 (refuted by the code): on the sector `start = 0x1000`,
`length = 64`, the call `read(60, buf, 8)` is NOT rejected: the wrap-only
guard passes, the call returns `SEEPROM_OK` and actually reads byte
address `0x1040 = start + 64`, the first byte past the sector. -/
theorem read_past_sector_not_rejected :
    (sEEPROM.read ⟨4096, 64⟩ 60 (fun _ => 0) 8 (fun _ => 0)).status = SEEPROM_OK ∧
    (sEEPROM.read ⟨4096, 64⟩ 60 (fun _ => 0) 8 (fun _ => 0)).status ≠ SEEPROM_OF ∧
    Event.memRead (4096 + 64) ∈
      (sEEPROM.read ⟨4096, 64⟩ 60 (fun _ => 0) 8 (fun _ => 0)).trace := by
  refine ⟨by decide, by decide, by decide⟩

/-- Claim C3 (refuted by the code): `write` then `read` does not
round-trip in the regime `len ≥ 4` with non-zero remainder.  With
`startOffset = 0`, `len = 6` and buffer bytes `value i = i + 1`, the
two-byte chunk is sourced from `(uint16_t*)value + startOffset` after
`startOffset` was advanced to 4, i.e. from byte offset 8 of the buffer: the
read-back byte 4 equals `value 8 = 9`, not `value 4 = 5`. -/
theorem write_read_roundtrip_fails :
    (sEEPROM.read ⟨4096, 64⟩ 0 (fun _ => 0) 6
        (sEEPROM.write ⟨4096, 64⟩ 0 (fun i => i + 1) 6 (fun _ => 0)).mem).out 4 =
      (fun i : Nat => i + 1) 8 ∧
    (sEEPROM.read ⟨4096, 64⟩ 0 (fun _ => 0) 6
        (sEEPROM.write ⟨4096, 64⟩ 0 (fun i => i + 1) 6 (fun _ => 0)).mem).out 4 ≠
      (fun i : Nat => i + 1) 4 := by
  refine ⟨by decide, by decide⟩

/-- Claim C4 (refuted by the code): the destination byte
`start + startOffset + i` does not receive source byte `value i`.  With
`startOffset = 1` and `len = 1` the single-byte chunk is sourced from
`(uint8_t*)value + startOffset`, so destination byte `start + 1` receives
`value 1`, not `value 0`. -/
theorem write_uses_wrong_source_offset :
    (sEEPROM.write ⟨4096, 64⟩ 1 (fun i => 10 + i) 1 (fun _ => 0)).mem (4096 + 1) =
      (fun i : Nat => 10 + i) 1 ∧
    (sEEPROM.write ⟨4096, 64⟩ 1 (fun i => 10 + i) 1 (fun _ => 0)).mem (4096 + 1) ≠
      (fun i : Nat => 10 + i) 0 := by
  refine ⟨by decide, by decide⟩

/-- Claim C5 (refuted by the code for `read`): `read(0, buf, 0)` does not
perform zero memory accesses: its do-while copy loop runs once before
testing the `uint16_t` index, so it performs 65536 one-byte reads (while
still returning `SEEPROM_OK`); `write(0, buf, 0)` does behave as claimed:
it returns `SEEPROM_OK`, leaves memory untouched and emits only the
unlock and lock sequences. -/
theorem len_zero_read_accesses_memory :
    (sEEPROM.read ⟨134742016, 2048⟩ 0 (fun _ => 0) 0 (fun _ => 0)).trace.length =
      65536 ∧
    (sEEPROM.read ⟨134742016, 2048⟩ 0 (fun _ => 0) 0 (fun _ => 0)).status =
      SEEPROM_OK ∧
    sEEPROM.write ⟨134742016, 2048⟩ 0 (fun _ => 0) 0 (fun _ => 0) =
      ⟨SEEPROM_OK, (fun _ => 0), unlockEvents ++ lockEvents⟩ := by
  refine ⟨?_, ?_, rfl⟩
  · rw [read_ok_eq 134742016 2048 0 (fun _ => 0) 0 (fun _ => 0) (by decide)]
    show ((readIter (((134742016 : Nat) + 0) % U32) (fun _ => 0) 0 (fun _ => 0)
        (dwCount 0)).2).length = 65536
    exact (readIter_trace_length (((134742016 : Nat) + 0) % U32) (fun _ => 0)
      (dwCount 0) 0 (fun _ => 0)).trans (by decide)
  · rw [read_ok_eq 134742016 2048 0 (fun _ => 0) 0 (fun _ => 0) (by decide)]
theorem erase_ok_eq (s L off l : Nat) (mem : Mem)
    (ha : off % 4 = 0) (hb : overflowCheck s off (l * 4) = false) :
    sEEPROM.erase ⟨s, L⟩ off l mem =
      ⟨SEEPROM_OK,
        (eraseIter ((s + off) % U32) mem 0 (dwCount l)).1,
        unlockEvents ++ [Event.eraseOn] ++
          (eraseIter ((s + off) % U32) mem 0 (dwCount l)).2 ++
          [Event.eraseOff] ++ lockEvents⟩ := by
  unfold sEEPROM.erase
  rw [if_neg (by simp [ha]), if_neg (by simp [hb])]

theorem erase_ok_mem (s L off l : Nat) (mem : Mem)
    (ha : off % 4 = 0) (hb : overflowCheck s off (l * 4) = false) :
    (sEEPROM.erase ⟨s, L⟩ off l mem).mem =
      (eraseIter ((s + off) % U32) mem 0 (dwCount l)).1 := by
  rw [erase_ok_eq s L off l mem ha hb]

/-- Claim C6, counterexample: `erase(0, 0)` on the sector `start = 0x1000`
passes both checks and, although asked to erase zero words, zeroes byte
`start + 100` (its do-while loop runs 65536 times): with all of memory
initially 7, the byte at `0x1000 + 100` reads 0 afterwards although the
claim says no element is modified. -/
theorem erase_len_zero_modifies_memory :
    (sEEPROM.erase ⟨4096, 64⟩ 0 0 (fun _ => 7)).status = SEEPROM_OK ∧
    (sEEPROM.erase ⟨4096, 64⟩ 0 0 (fun _ => 7)).mem (4096 + 100) = 0 ∧
    (fun _ => (7 : Nat)) (4096 + 100) = 7 := by
  refine ⟨?_, ?_, rfl⟩
  · rw [erase_ok_eq 4096 64 0 0 (fun _ => 7) (by decide) (by decide)]
  · conv_lhs => rw [erase_ok_mem 4096 64 0 0 (fun _ => 7) (by decide) (by decide)]
    conv_lhs => rw [show ((4096 : Nat) + 100) =
      ((((4096 : Nat) + 0) % U32) + 4 * 0 + 100) % U32 by norm_num [U32]]
    exact eraseIter_zero (((4096 : Nat) + 0) % U32) (dwCount 0) 0 (fun _ => 7)
      100 (by decide)
/-- Claim C6 as amended: for every aligned `startOffset` that passes the
bounds guard and every `len` with `1 ≤ len < 2^16` (`len = 0` must be
excluded: its do-while loop then runs 65536 times, see the
counterexample), `erase` returns `SEEPROM_OK`, zeroes the `4 * len` bytes
of the `len` words starting at `start + startOffset`, leaves every other
address untouched, and its word-store events walk those words in
ascending order. -/
theorem erase_zeroes_words (s L off l : Nat) (mem : Mem)
    (hal : off % 4 = 0) (hof : overflowCheck s off (l * 4) = false)
    (h1 : 1 ≤ l) (h2 : l < U16) :
    (sEEPROM.erase ⟨s, L⟩ off l mem).status = SEEPROM_OK ∧
    (∀ k, k < 4 * l →
      (sEEPROM.erase ⟨s, L⟩ off l mem).mem ((s + off + k) % U32) = 0) ∧
    (∀ x, (∀ k, k < 4 * l → x ≠ (s + off + k) % U32) →
      (sEEPROM.erase ⟨s, L⟩ off l mem).mem x = mem x) ∧
    eventAddrs (sEEPROM.erase ⟨s, L⟩ off l mem).trace =
      (List.range l).map (fun i => (s + off + 4 * i) % U32) := by
  have hcount : dwCount l = l := by
    unfold dwCount
    rw [Nat.mod_eq_of_lt h2, if_neg (by omega)]
  rw [erase_ok_eq s L off l mem hal hof]
  refine ⟨rfl, ?_, ?_, ?_⟩
  · intro k hk
    show (eraseIter ((s + off) % U32) mem 0 (dwCount l)).1 ((s + off + k) % U32) = 0
    rw [show (s + off + k) % U32 = (((s + off) % U32) + 4 * 0 + k) % U32 by
      simp [Nat.mod_add_mod]]
    exact eraseIter_zero ((s + off) % U32) (dwCount l) 0 mem k (by omega)
  · intro x hx
    show (eraseIter ((s + off) % U32) mem 0 (dwCount l)).1 x = mem x
    apply eraseIter_frame
    intro k hk
    rw [hcount] at hk
    rw [show (((s + off) % U32) + 4 * 0 + k) % U32 = (s + off + k) % U32 by
      simp [Nat.mod_add_mod]]
    exact hx k (by omega)
  · show eventAddrs (unlockEvents ++ [Event.eraseOn] ++
        (eraseIter ((s + off) % U32) mem 0 (dwCount l)).2 ++
        [Event.eraseOff] ++ lockEvents) = _
    rw [show eventAddrs (unlockEvents ++ [Event.eraseOn] ++
        (eraseIter ((s + off) % U32) mem 0 (dwCount l)).2 ++
        [Event.eraseOff] ++ lockEvents) =
      eventAddrs (eraseIter ((s + off) % U32) mem 0 (dwCount l)).2 by
        simp [eventAddrs, unlockEvents, lockEvents]]
    rw [eventAddrs_eraseIter, hcount]
    apply List.map_congr_left
    intro a _
    rw [show 4 * (0 + a) = 4 * a by omega]
    simp [Nat.mod_add_mod]

/-- Witness for `erase_zeroes_words` at `start = 0x1000`,
`startOffset = 4`, `len = 2` over all-7 memory. -/
theorem erase_zeroes_words_witness :
    (sEEPROM.erase ⟨4096, 64⟩ 4 2 (fun _ => 7)).status = SEEPROM_OK ∧
    (sEEPROM.erase ⟨4096, 64⟩ 4 2 (fun _ => 7)).mem ((4096 + 4 + 0) % U32) = 0 ∧
    (sEEPROM.erase ⟨4096, 64⟩ 4 2 (fun _ => 7)).mem 999 = (fun _ => (7 : Nat)) 999 ∧
    eventAddrs (sEEPROM.erase ⟨4096, 64⟩ 4 2 (fun _ => 7)).trace =
      (List.range 2).map (fun i => (4096 + 4 + 4 * i) % U32) := by
  have H := erase_zeroes_words 4096 64 4 2 (fun _ => 7) (by decide) (by decide)
    (by decide) (by decide)
  exact ⟨H.1, H.2.1 0 (by decide), H.2.2.1 999 (by decide), H.2.2.2⟩
